import Mathlib

/-!
Shallow embedding of `src/renderer/screens/DatabaseScreen/QueryResultViewer/QueryResultTable.tsx`
from rin-yato/query-master.

JavaScript values stored in a result row are modelled by `JsValue`; a JS object
(`Record<string, unknown>`) is modelled as an association list with first-match
lookup, a missing key reading as `undefined`.  Machine numbers in this component
are ordinary integers (display positions, row identities, pixel widths), so they
are embedded as `Int`/`Nat`.
-/

namespace QueryMaster

/-- A JavaScript runtime value as it appears in a result cell. -/
inductive JsValue where
  | undefined
  | null
  | str (s : String)
  | num (n : Int)
  deriving DecidableEq

/-- Declared value type of a result column (`header.type.type` in the source). -/
inductive HeaderType where
  | number
  | string
  | decimal
  | other (kind : String)
  deriving DecidableEq

/-- `header.schema`: optional originating table and primary-key flag. -/
structure HeaderSchema where
  table : Option String
  primaryKey : Bool
  deriving DecidableEq

/-- A result header (`QueryResultHeader` in `types/SqlResult`): a name, a declared
type, and an optional originating schema table. -/
structure QueryResultHeader where
  name : String
  type : HeaderType
  schema : Option HeaderSchema
  deriving DecidableEq

/-- One row of `result`: `{ data: Record<string, unknown>; rowIndex: number }`. -/
structure ResultRow where
  data : List (String × JsValue)
  rowIndex : Int
  deriving DecidableEq

/-- JS object property read: `row[name]`; a missing key reads as `undefined`. -/
def jsGet (o : List (String × JsValue)) (k : String) : JsValue :=
  match o.lookup k with
  | some v => v
  | none => .undefined

/-- The data object of a synthetic new row (lines 130-133):
`headers.reduce((prev, header) => ({ ...prev, [header.name]: undefined }), {})`,
i.e. every header name is bound to `undefined`. -/
def emptyRowData (headers : List QueryResultHeader) : List (String × JsValue) :=
  headers.map (fun h => (h.name, JsValue.undefined))

/-- The synthetic new rows (lines 125-135): the k-th created row (0-indexed) has
`rowIndex = -(k+1)` and all-`undefined` data. -/
def newRows (headers : List QueryResultHeader) (newRowCount : Nat) : List ResultRow :=
  (List.range newRowCount).map
    (fun (k : Nat) => { rowIndex := -((k : Int) + 1), data := emptyRowData headers })

/-- The display row sequence `data` (line 137): `[...newRows, ...result]`. -/
def dataRows (headers : List QueryResultHeader) (result : List ResultRow)
    (newRowCount : Nat) : List ResultRow :=
  newRows headers newRowCount ++ result

/-- `newRowsIndex` (lines 36-39): `new Array(newRowCount).fill(0).map((_, idx) => idx)`,
the list `[0, 1, ..., newRowCount-1]`. -/
def newRowsIndex (newRowCount : Nat) : List Nat :=
  List.range newRowCount

/-- The display-to-logical conversion of the "Remove selected rows" handler
(lines 72-76): `p - newRowCount < 0 ? p - newRowCount : p - newRowCount + page * pageSize`. -/
def removeRowIdentity (p newRowCount page pageSize : Int) : Int :=
  if p - newRowCount < 0 then p - newRowCount
  else p - newRowCount + page * pageSize

/-- The list of identities handed to `collector.removeRow`, in order, by the
"Remove selected rows" click handler (lines 70-78). -/
def removeSelectedRowsCalls (selectedRowsIndex : List Int)
    (newRowCount page pageSize : Int) : List Int :=
  selectedRowsIndex.map (fun p => removeRowIdentity p newRowCount page pageSize)

/-- One pending cell edit of a change row: `{ col, value }`. -/
structure ChangeCol where
  col : Nat
  value : JsValue
  deriving DecidableEq

/-- One row of `collector.getChanges().changes`: `{ row, cols }`. -/
structure ChangeRow where
  row : Int
  cols : List ChangeCol
  deriving DecidableEq

/-- An observable effect of the "Discard All Changes" click handler. -/
inductive DiscardEffect where
  | discardCell (row : Int) (col : Nat)
  | clearCollector
  deriving DecidableEq

/-- The effect trace of the "Discard All Changes" click handler (lines 105-118):
for each change row, for each pending column, `cellManager.get(row.row, col.col)`
is consulted and `discard()` is invoked only when a cell is mounted; afterwards
`collector.clear()` runs.  `mounted r c = true` models `cellManager.get(r, c)`
returning a cell controller. -/
def discardAllChangesClick (changes : List ChangeRow)
    (mounted : Int → Nat → Bool) : List DiscardEffect :=
  (changes.map (fun r =>
    r.cols.filterMap (fun c =>
      if mounted r.row c.col then some (DiscardEffect.discardCell r.row c.col)
      else none))).flatten ++ [DiscardEffect.clearCollector]

/-- One entry of the context menu; only the fields the claims speak about. -/
structure MenuItem where
  text : String
  disabled : Bool
  deriving DecidableEq

/-- The context menu built by `handleContextMenu` (lines 55-121).  `focusCell`
models `cellManager.getFocusCell()` (`α` the cell-controller type);
`changesCount` models `collector.getChangesCount()`, a non-negative count, so
JS `!count` is `count == 0`.  The "Insert new row" item carries no `disabled`
key, which the menu reads as `undefined`, i.e. enabled. -/
def contextMenuItems {α : Type} (selectedRowsIndex : List Int)
    (focusCell : Option α) (changesCount : Nat) : List MenuItem :=
  [ { text := "Insert new row", disabled := false },
    { text := "Remove selected rows", disabled := selectedRowsIndex.length == 0 },
    { text := "Insert NULL", disabled := focusCell.isNone },
    { text := "Copy", disabled := focusCell.isNone },
    { text := "Paste", disabled := focusCell.isNone },
    { text := "Discard All Changes", disabled := changesCount == 0 } ]

/-- `Math.max(...xs)` over a spread list: `none` stands for the `-Infinity`
produced by `Math.max()` of an empty spread. -/
def jsMax : List Int → Option Int
  | [] => none
  | x :: xs =>
    match jsMax xs with
    | none => some x
    | some m => some (max x m)

/-- The sampled text length of one row's value in a column (lines 161-164):
a string's length, and 10 for any non-string value. -/
def cellTextLength (row : ResultRow) (name : String) : Int :=
  match jsGet row.data name with
  | .str s => (s.length : Int)
  | _ => 10

/-- The sample of text lengths over the first up-to-100 rows (line 161):
`result.slice(0, 100).map(...)`. -/
def sampleLens (result : List ResultRow) (name : String) : List Int :=
  (result.take 100).map (fun r => cellTextLength r name)

/-- `getInitialSizeByHeaderType` (lines 152-172).  For a string/decimal column,
`Math.max(150, Math.min(500, maxLength * 8))` where `maxLength` is `Math.max`
over the sample; with an empty sample `Math.max()` is `-Infinity`, and
`max(150, min(500, -Infinity)) = 150`, the `none` branch below. -/
def getInitialSizeByHeaderType (result : List ResultRow)
    (header : QueryResultHeader) : Int :=
  match header.type with
  | .number => 100
  | .string =>
    (match jsMax (sampleLens result header.name) with
     | none => 150
     | some m => max 150 (min 500 (m * 8)))
  | .decimal =>
    (match jsMax (sampleLens result header.name) with
     | none => 150
     | some m => max 150 (min 500 (m * 8)))
  | .other _ => 150

/-- `initialSize` of a rendered header (lines 180-183):
`Math.max(header.name.length * 10, getInitialSizeByHeaderType(idx, header))`. -/
def headerInitialSize (result : List ResultRow) (header : QueryResultHeader) : Int :=
  max ((header.name.length : Int) * 10) (getInitialSizeByHeaderType result header)

/-- The key used to look a header up in the updatable-table map (line 197):
`headers[x]?.schema?.table || ''` — optional chaining is `Option.bind`, and
`|| ''` turns a missing (or already empty) table name into `''`. -/
def tableKey (h : QueryResultHeader) : String :=
  match h.schema.bind HeaderSchema.table with
  | some t => t
  | none => ""

/-- Whether header `h` resolves to the originating table named `t`. -/
def headerResolvesTo (t : String) (h : QueryResultHeader) : Bool :=
  match h.schema with
  | some s => s.table == some t
  | none => false

/-- Modelled from the spec: `getUpdatableTable` lives in
`libs/GenerateSqlFromChanges`, which is not under `src/`.  The spec describes it
as "an opaque boolean lookup keyed by table name" computed from the headers and
the current database's schema, such that "headers without a resolvable table are
non-editable".  We model it as: a key is updatable exactly when it is the
resolved originating table of some header and the database schema
(`schemaUpdatable`) marks that table updatable. -/
def getUpdatableTable (headers : List QueryResultHeader)
    (schemaUpdatable : String → Bool) : String → Bool :=
  fun t => headers.any (headerResolvesTo t) && schemaUpdatable t

/-- The `updatableTables` memo (lines 140-145): when `currentDatabase` and
`schema` are both present (JS-truthy: an absent or empty-string database is
falsy) the map comes from `getUpdatableTable(headers, schema[currentDatabase])`;
otherwise it is the empty object `{}`, in which every lookup reads `undefined`,
i.e. `false`. -/
def updatableTables (headers : List QueryResultHeader)
    (schema : Option (String → String → Bool))
    (currentDatabase : Option String) : String → Bool :=
  match currentDatabase, schema with
  | some db, some sch =>
    if db = "" then fun _ => false
    else getUpdatableTable headers (sch db)
  | _, _ => fun _ => false

/-- What one `renderCell(y, x)` call produces: the empty renderable `<></>`,
a `TableCell` (value, header name, column, logical row, read-only flag), or a
JS `TypeError` (reading `.name` of `headers[x]` when `x` is out of range while
the row exists — line 193 has no optional chaining on `headers[x].name`). -/
inductive RenderResult where
  | empty
  | jsError
  | cell (value : JsValue) (headerName : String) (col : Nat) (row : Int)
      (readOnly : Bool)
  deriving DecidableEq

/-- The per-cell render callback (lines 187-204): when `data[y]` is absent the
empty renderable is returned; otherwise a `TableCell` is built with
`value = data[y].data[headers[x].name]`, `row = data[y].rowIndex`, and
`readOnly = !updatableTables[headers[x]?.schema?.table || '']`. -/
def renderCell (headers : List QueryResultHeader) (result : List ResultRow)
    (newRowCount : Nat) (updatable : String → Bool) (y x : Nat) : RenderResult :=
  match (dataRows headers result newRowCount).get? y with
  | none => .empty
  | some row =>
    match headers.get? x with
    | none => .jsError
    | some h =>
      .cell (jsGet row.data h.name) h.name x row.rowIndex (! updatable (tableKey h))

/-- `Array.prototype.findIndex` over the display rows, matching on `rowIndex`:
the index of the first match, `-1` when there is none. -/
def jsFindIndexRow (rows : List ResultRow) (target : Int) : Int :=
  match rows with
  | [] => -1
  | r :: rest =>
    if r.rowIndex = target then 0
    else if jsFindIndexRow rest target = -1 then -1
    else jsFindIndexRow rest target + 1

/-- JS nullish coalescing `a ?? b` where `a` is `none` for `null`/`undefined`. -/
def jsNullish (a : Option Int) (b : Int) : Int :=
  a.getD b

/-- `relativeRemoveRowsIndex` (lines 206-210): each removed logical identity is
mapped to `data.findIndex(({ rowIndex }) => rowIndex === removeIndex) ?? 0`.
`findIndex` always returns a number, hence the `some`. -/
def relativeRemoveRowsIndex (removeRowsIndex : List Int)
    (rows : List ResultRow) : List Int :=
  removeRowsIndex.map (fun i => jsNullish (some (jsFindIndexRow rows i)) 0)

/-- The display position of a logical row identity as §4.1 of the spec defines
`displayIndexOf`: `newRowCount + i` for non-negative `i`, `-i - 1` for negative
`i`. -/
def displayIndexOf (newRowCount : Nat) (i : Int) : Int :=
  if 0 ≤ i then (newRowCount : Int) + i else -i - 1

/-- A 60-character sample string, for Scenario C of the spec. -/
def sampleString60 : String :=
  "ABCDEFGHIJKLMNOPQRSTUVWXYZabcdefghijklmnopqrstuvwxyz01234567"

/-! ## Helper lemmas -/

/-- `jsMax` of a list is `none` exactly on the empty list. -/
theorem jsMax_eq_none_iff (l : List Int) : jsMax l = none ↔ l = [] := by
  cases l with
  | nil => simp [jsMax]
  | cons a t =>
    cases h : jsMax t <;> simp [jsMax, h]

/-- The value `Math.max` returns is an element of its arguments. -/
theorem jsMax_mem (l : List Int) (m : Int) (h : jsMax l = some m) : m ∈ l := by
  induction l generalizing m with
  | nil => cases h
  | cons a t ih =>
    cases ht : jsMax t with
    | none =>
      simp only [jsMax, ht, Option.some.injEq] at h
      rw [← h]
      exact List.mem_cons_self a t
    | some m' =>
      simp only [jsMax, ht, Option.some.injEq] at h
      rw [← h]
      rcases max_choice a m' with hc | hc <;> rw [hc]
      · exact List.mem_cons_self a t
      · exact List.mem_cons_of_mem a (ih m' ht)

/-- The value `Math.max` returns bounds every argument. -/
theorem jsMax_le (l : List Int) (m : Int) (h : jsMax l = some m) :
    ∀ x ∈ l, x ≤ m := by
  induction l generalizing m with
  | nil => intro x hx; cases hx
  | cons a t ih =>
    intro x hx
    cases ht : jsMax t with
    | none =>
      simp only [jsMax, ht, Option.some.injEq] at h
      rw [← h]
      have htn : t = [] := (jsMax_eq_none_iff t).mp ht
      subst htn
      rcases List.mem_singleton.mp hx with rfl
      exact le_refl x
    | some m' =>
      simp only [jsMax, ht, Option.some.injEq] at h
      rw [← h]
      rcases List.mem_cons.mp hx with rfl | hx'
      · exact le_max_left x m'
      · exact le_trans (ih m' ht x hx') (le_max_right a m')

/-- `Math.max` of a spread list returns its greatest element. -/
theorem jsMax_eq_greatest (l : List Int) (L : Int) (hmem : L ∈ l)
    (hub : ∀ x ∈ l, x ≤ L) : jsMax l = some L := by
  cases hM : jsMax l with
  | none =>
    rw [jsMax_eq_none_iff] at hM
    subst hM
    cases hmem
  | some M =>
    have hMl : M ∈ l := jsMax_mem l M hM
    have h1 : L ≤ M := jsMax_le l M hM L hmem
    have h2 : M ≤ L := hub M hMl
    rw [le_antisymm h2 h1]

/-- Every key of a synthetic new row's data object reads as `undefined`. -/
theorem jsGet_emptyRowData (headers : List QueryResultHeader) (k : String) :
    jsGet (emptyRowData headers) k = .undefined := by
  induction headers with
  | nil => rfl
  | cons h t ih =>
    simp only [emptyRowData, List.map_cons, jsGet, List.lookup] at ih ⊢
    cases hb : (k == h.name) <;> simp [hb] <;> exact ih

theorem newRows_length (headers : List QueryResultHeader) (n : Nat) :
    (newRows headers n).length = n := by
  rw [newRows, List.length_map, List.length_range]

theorem newRows_get? (headers : List QueryResultHeader) (n k : Nat) (hk : k < n) :
    (newRows headers n).get? k
      = some { rowIndex := -((k : Int) + 1), data := emptyRowData headers } := by
  rw [newRows, List.get?_eq_getElem?, List.getElem?_map, List.getElem?_range hk]
  rfl

/-- `findIndex` returns `-1` when no row matches. -/
theorem jsFindIndexRow_eq_neg_one (rows : List ResultRow) (i : Int)
    (h : ∀ r ∈ rows, r.rowIndex ≠ i) : jsFindIndexRow rows i = -1 := by
  induction rows with
  | nil => rfl
  | cons r rest ih =>
    have h1 : r.rowIndex ≠ i := h r (List.mem_cons_self r rest)
    have h2 : jsFindIndexRow rest i = -1 :=
      ih (fun r' hr' => h r' (List.mem_cons_of_mem r hr'))
    simp [jsFindIndexRow, h1, h2]

/-- `findIndex` never returns anything below `-1`. -/
theorem jsFindIndexRow_ge (rows : List ResultRow) (i : Int) :
    -1 ≤ jsFindIndexRow rows i := by
  induction rows with
  | nil => simp [jsFindIndexRow]
  | cons r rest ih =>
    rw [jsFindIndexRow]
    split
    · omega
    · split
      · omega
      · omega

/-- `findIndex` over a concatenation, when the front contains a match: the
front's answer wins. -/
theorem jsFindIndexRow_append_hit (a b : List ResultRow) (i : Int)
    (h : jsFindIndexRow a i ≠ -1) :
    jsFindIndexRow (a ++ b) i = jsFindIndexRow a i := by
  induction a with
  | nil => exact absurd rfl h
  | cons r rest ih =>
    by_cases hr : r.rowIndex = i
    · simp only [List.cons_append, jsFindIndexRow, if_pos hr]
    · have hrest : jsFindIndexRow rest i ≠ -1 := by
        intro hm
        rw [jsFindIndexRow, if_neg hr, if_pos hm] at h
        exact h rfl
      simp only [List.cons_append, jsFindIndexRow, if_neg hr, List.append_eq,
        ih hrest]

/-- `findIndex` over a concatenation, when the front has no match: a hit in
the back is shifted by the front's length, a miss stays `-1`. -/
theorem jsFindIndexRow_append_miss (a b : List ResultRow) (i : Int)
    (h : jsFindIndexRow a i = -1) :
    jsFindIndexRow (a ++ b) i =
      if jsFindIndexRow b i = -1 then -1
      else jsFindIndexRow b i + (a.length : Int) := by
  induction a with
  | nil =>
    simp only [List.nil_append, List.length_nil]
    split_ifs with hb
    · exact hb
    · omega
  | cons r rest ih =>
    have hr : r.rowIndex ≠ i := by
      intro hri
      rw [jsFindIndexRow, if_pos hri] at h
      exact absurd h (by decide)
    have hrest : jsFindIndexRow rest i = -1 := by
      by_cases hm : jsFindIndexRow rest i = -1
      · exact hm
      · rw [jsFindIndexRow, if_neg hr, if_neg hm] at h
        have hge := jsFindIndexRow_ge rest i
        omega
    have hb := jsFindIndexRow_ge b i
    simp only [List.cons_append, jsFindIndexRow, if_neg hr, List.append_eq,
      ih hrest, List.length_cons]
    split_ifs <;> omega

/-- `findIndex` over the synthetic-row block starting at creation index `s`. -/
theorem jsFindIndexRow_rangeAux (headers : List QueryResultHeader)
    (cnt s : Nat) (i : Int) :
    jsFindIndexRow ((List.range' s cnt).map
        (fun (k : Nat) =>
          ({ rowIndex := -((k : Int) + 1), data := emptyRowData headers } : ResultRow))) i
      = if -((s : Int) + cnt) ≤ i ∧ i ≤ -((s : Int) + 1) then -i - 1 - s
        else -1 := by
  induction cnt generalizing s with
  | zero =>
    simp only [List.range', List.map_nil, jsFindIndexRow]
    split_ifs with h
    · omega
    · rfl
  | succ m ih =>
    rw [List.range'_succ, List.map_cons, jsFindIndexRow]
    have harec := ih (s + 1)
    by_cases hr : -((s : Int) + 1) = i
    · rw [if_pos hr]
      split_ifs <;> omega
    · rw [if_neg hr, harec]
      split_ifs <;> omega

/-- `findIndex` over the synthetic new rows: identity `i ∈ [-n, -1]` is at
display position `-i - 1`, anything else misses. -/
theorem jsFindIndexRow_newRows (headers : List QueryResultHeader) (n : Nat)
    (i : Int) :
    jsFindIndexRow (newRows headers n) i
      = if -(n : Int) ≤ i ∧ i ≤ -1 then -i - 1 else -1 := by
  rw [newRows, List.range_eq_range']
  have h := jsFindIndexRow_rangeAux headers n 0 i
  rw [h]
  split_ifs <;> omega

/-- `findIndex` over fetched rows whose `rowIndex` is `base + position`. -/
theorem jsFindIndexRow_fetched (result : List ResultRow) (base i : Int)
    (hres : ∀ (j : Nat) (hj : j < result.length),
      (result.get ⟨j, hj⟩).rowIndex = base + (j : Int)) :
    jsFindIndexRow result i
      = if base ≤ i ∧ i < base + (result.length : Int) then i - base
        else -1 := by
  induction result generalizing base with
  | nil =>
    simp only [jsFindIndexRow, List.length_nil]
    split_ifs with h
    · omega
    · rfl
  | cons r rest ih =>
    have h0 : r.rowIndex = base := by
      have h := hres 0 (by simp)
      simpa using h
    have hrest : ∀ (j : Nat) (hj : j < rest.length),
        (rest.get ⟨j, hj⟩).rowIndex = (base + 1) + (j : Int) := by
      intro j hj
      have h := hres (j + 1) (by simpa using Nat.succ_lt_succ hj)
      rw [List.get_cons_succ] at h
      rw [h]
      push_cast
      ring
    rw [jsFindIndexRow, h0, ih (base + 1) hrest]
    by_cases hbi : base = i
    · rw [if_pos hbi]
      simp only [List.length_cons]
      split_ifs <;> omega
    · rw [if_neg hbi]
      simp only [List.length_cons]
      split_ifs <;> omega

/-! ## Claims -/

/-- Claim C1: for every selected display position `p`, the logical identity
passed to `collector.removeRow` is `p - newRowCount` when that difference is
negative and `(p - newRowCount) + page * pageSize` otherwise; with `page = 2`,
`pageSize = 50`, `newRowCount = 1` and `p = 5` the removed identity is `104`. -/
theorem remove_identity_conversion (sel : List Int) (n page pageSize p : Int)
    (hp : p ∈ sel) :
    removeRowIdentity p n page pageSize ∈ removeSelectedRowsCalls sel n page pageSize ∧
    (p - n < 0 → removeRowIdentity p n page pageSize = p - n) ∧
    (0 ≤ p - n → removeRowIdentity p n page pageSize = p - n + page * pageSize) ∧
    removeSelectedRowsCalls [5] 1 2 50 = [104] := by
  refine ⟨List.mem_map_of_mem _ hp, fun h => ?_, fun h => ?_, by decide⟩
  · simp [removeRowIdentity, h]
  · simp only [removeRowIdentity]
    rw [if_neg (by omega)]

/-- Concrete instance of claim C1 (Scenario B). -/
theorem remove_identity_conversion_witness :
    removeRowIdentity 5 1 2 50 = 5 - 1 + 2 * 50 :=
  (remove_identity_conversion [5] 1 2 50 5 (by decide)).2.2.1 (by decide)

/-- Claim C2 is false on the code: with two new rows present, removing display
position 0 passes identity `0 - 2 = -2` to `collector.removeRow`, while the row
displayed at position 0 has `rowIndex = -1 = -(0+1)`. -/
theorem remove_synthetic_counterexample :
    removeRowIdentity 0 2 0 50 = -2 ∧
    ((dataRows [] [] 2).get? 0).map ResultRow.rowIndex = some (-1) ∧
    ¬ removeRowIdentity 0 2 0 50 = -(0 + 1) := by decide

/-- Claim C2 amended: for a display position `p` below the new-row count the
identity passed to `collector.removeRow` is `p - newRowCount` (a negative
number), and it coincides with the displayed row's `rowIndex = -(p+1)` exactly
when `newRowCount = 2p + 1`. -/
theorem remove_synthetic_amended (p n page pageSize : Int) (h0 : 0 ≤ p)
    (h : p < n) :
    removeRowIdentity p n page pageSize = p - n ∧
    p - n < 0 ∧
    (removeRowIdentity p n page pageSize = -(p + 1) ↔ n = 2 * p + 1) := by
  have hneg : p - n < 0 := by omega
  refine ⟨by simp [removeRowIdentity, hneg], hneg, ?_⟩
  simp only [removeRowIdentity, if_pos hneg]
  omega

/-- Concrete instance of the amended claim C2. -/
theorem remove_synthetic_amended_witness :
    removeRowIdentity 0 1 2 50 = 0 - 1 :=
  (remove_synthetic_amended 0 1 2 50 (by decide) (by decide)).1

/-- Claim C3: the display row sequence is the `n` synthetic new rows in creation
order — the k-th (0-indexed) having `rowIndex -(k+1)` and a data mapping whose
every key reads the unset sentinel — followed by the fetched rows in original
order, and the new-row display-position list handed to the grid is
`[0, 1, ..., n-1]`. -/
theorem display_rows_structure (headers : List QueryResultHeader)
    (result : List ResultRow) (n : Nat) :
    (dataRows headers result n).length = n + result.length ∧
    (∀ k, k < n → (dataRows headers result n).get? k
        = some { rowIndex := -((k : Int) + 1), data := emptyRowData headers }) ∧
    (∀ name, jsGet (emptyRowData headers) name = .undefined) ∧
    (∀ j, (dataRows headers result n).get? (n + j) = result.get? j) ∧
    newRowsIndex n = List.range n := by
  refine ⟨by simp [dataRows, newRows_length], fun k hk => ?_, jsGet_emptyRowData headers,
    fun j => ?_, rfl⟩
  · rw [dataRows, List.get?_append (by simpa [newRows_length] using hk),
      newRows_get? headers n k hk]
  · rw [dataRows, List.get?_append_right (by simp [newRows_length])]
    simp [newRows_length]

/-- Concrete instance of claim C3 (Scenario A shape). -/
theorem display_rows_structure_witness :
    (dataRows [] [] 2).get? 0
      = some { rowIndex := -(((0 : Nat) : Int) + 1), data := emptyRowData [] } :=
  (display_rows_structure [] [] 2).2.1 0 (by decide)

/-- Claim C6: "Remove selected rows" is disabled exactly when the selection is
empty; "Insert NULL", "Copy" and "Paste" are disabled exactly when no cell is
focused; "Discard All Changes" is disabled exactly when the pending-change count
is zero; "Insert new row" is always enabled. -/
theorem context_menu_disabled {α : Type} (sel : List Int) (cell : Option α)
    (cnt : Nat) (item : MenuItem) (hmem : item ∈ contextMenuItems sel cell cnt) :
    (item.text = "Remove selected rows" → (item.disabled = true ↔ sel = [])) ∧
    (item.text = "Insert NULL" ∨ item.text = "Copy" ∨ item.text = "Paste" →
      (item.disabled = true ↔ cell = none)) ∧
    (item.text = "Discard All Changes" → (item.disabled = true ↔ cnt = 0)) ∧
    (item.text = "Insert new row" → item.disabled = false) := by
  simp only [contextMenuItems, List.mem_cons, List.not_mem_nil, or_false] at hmem
  rcases hmem with h|h|h|h|h|h <;> subst h <;>
    refine ⟨fun ht => ?_, fun ht => ?_, fun ht => ?_, fun ht => ?_⟩ <;>
    simp_all [Option.isNone_iff_eq_none, List.length_eq_zero]

/-- Concrete instance of claim C6: "Insert new row" enabled on an empty state. -/
theorem context_menu_disabled_witness :
    ({ text := "Insert new row", disabled := false } : MenuItem).disabled = false :=
  (context_menu_disabled ([] : List Int) (none : Option Unit) 0
    { text := "Insert new row", disabled := false } (by decide)).2.2.2 rfl

/-- Claim C8: a render request at a display row at or beyond the end of the
display row sequence yields the empty renderable, not an error. -/
theorem render_out_of_range_empty (headers : List QueryResultHeader)
    (result : List ResultRow) (n : Nat) (u : String → Bool) (y x : Nat)
    (hy : (dataRows headers result n).length ≤ y) :
    renderCell headers result n u y x = .empty := by
  unfold renderCell
  rw [List.get?_eq_none.mpr hy]

/-- Concrete instance of claim C8. -/
theorem render_out_of_range_empty_witness :
    renderCell [] [] 0 (fun _ => false) 0 0 = .empty :=
  render_out_of_range_empty [] [] 0 (fun _ => false) 0 0 (by decide)

/-- Claim C10: a removed identity matching no displayed row is forwarded as
`-1` (the JS `findIndex` miss value), and since `findIndex` never returns a
nullish value the `?? 0` fallback never fires: the forwarded list is exactly
the raw `findIndex` results. -/
theorem removed_identity_unmatched (removeList : List Int)
    (rows : List ResultRow) (i : Int) (hi : i ∈ removeList)
    (hnone : ∀ r ∈ rows, r.rowIndex ≠ i) :
    jsFindIndexRow rows i = -1 ∧
    relativeRemoveRowsIndex removeList rows
      = removeList.map (fun j => jsFindIndexRow rows j) ∧
    (-1 : Int) ∈ relativeRemoveRowsIndex removeList rows := by
  have h1 := jsFindIndexRow_eq_neg_one rows i hnone
  refine ⟨h1, by simp [relativeRemoveRowsIndex, jsNullish], ?_⟩
  have hm := List.mem_map_of_mem
    (fun j => jsNullish (some (jsFindIndexRow rows j)) 0) hi
  simpa [relativeRemoveRowsIndex, jsNullish, h1] using hm

/-- Claim C4 fails as stated: with no new rows and one fetched row of identity
0, the removed identity 3 matches no displayed row, so the grid is handed
position -1, not displayIndexOf(3) = 0 + 3 = 3. -/
theorem removed_rows_display_counterexample :
    relativeRemoveRowsIndex [3] (dataRows [] [{ data := [], rowIndex := 0 }] 0)
      = [-1] ∧
    displayIndexOf 0 3 = 3 ∧
    relativeRemoveRowsIndex [3] (dataRows [] [{ data := [], rowIndex := 0 }] 0)
      ≠ [displayIndexOf 0 3] := by decide

/-- Claim C4 amended: provided each fetched row's `rowIndex` equals its
position, a removed identity `i` that names a displayed row — `-(newRowCount)
≤ i < result.length` — is forwarded to the grid at position
`displayIndexOf i` (`newRowCount + i` for non-negative `i`, `-i - 1` for
negative `i`); an identity naming no displayed row is forwarded as `-1`. -/
theorem removed_rows_display_positions (headers : List QueryResultHeader)
    (result : List ResultRow) (n : Nat) (removeList : List Int)
    (hres : ∀ (j : Nat) (hj : j < result.length),
      (result.get ⟨j, hj⟩).rowIndex = (j : Int)) :
    relativeRemoveRowsIndex removeList (dataRows headers result n)
      = removeList.map (fun i =>
          if -(n : Int) ≤ i ∧ i < (result.length : Int)
          then displayIndexOf n i else -1) := by
  unfold relativeRemoveRowsIndex
  apply List.map_congr_left
  intro i _
  rw [jsNullish, Option.getD_some]
  have hnew := jsFindIndexRow_newRows headers n i
  have hfet := jsFindIndexRow_fetched result 0 i
    (by intro j hj; rw [hres j hj]; omega)
  rw [dataRows]
  by_cases hcase : -(n : Int) ≤ i ∧ i ≤ -1
  · have hne : jsFindIndexRow (newRows headers n) i ≠ -1 := by
      rw [hnew, if_pos hcase]
      omega
    rw [jsFindIndexRow_append_hit _ _ _ hne, hnew, if_pos hcase, displayIndexOf]
    split_ifs <;> omega
  · have hmiss : jsFindIndexRow (newRows headers n) i = -1 := by
      rw [hnew, if_neg hcase]
    rw [jsFindIndexRow_append_miss _ _ _ hmiss, hfet, newRows_length,
      displayIndexOf]
    split_ifs <;> omega

/-- Concrete instance of the amended claim C4: one new row, one fetched row;
identities -1 and 0 land at displayIndexOf, 104 misses and lands at -1. -/
theorem removed_rows_display_positions_witness :
    relativeRemoveRowsIndex [-1, 0, 104]
        (dataRows [] [{ data := [], rowIndex := 0 }] 1)
      = [(-1 : Int), 0, 104].map (fun i =>
          if -(1 : Int) ≤ i ∧ i < (1 : Int) then displayIndexOf 1 i else -1) :=
  removed_rows_display_positions [] [{ data := [], rowIndex := 0 }] 1
    [-1, 0, 104]
    (by intro j hj
        simp only [List.length_singleton] at hj
        have hj0 : j = 0 := by omega
        subst hj0
        rfl)

/-- Concrete instance of claim C10. -/
theorem removed_identity_unmatched_witness :
    jsFindIndexRow [] 7 = -1 :=
  (removed_identity_unmatched [7] [] 7 (by decide) (by simp)).1

/-- Claim C5: the "Discard All Changes" click handler visits every pending edit
of `collector.getChanges().changes`, invokes `discard()` exactly on those whose
cell controller is mounted (unmounted cells are skipped without error), and then
calls `collector.clear()` exactly once, as the final step. -/
theorem discard_all_changes_behavior (changes : List ChangeRow)
    (mounted : Int → Nat → Bool) :
    (discardAllChangesClick changes mounted).count DiscardEffect.clearCollector = 1 ∧
    (discardAllChangesClick changes mounted).getLast? = some DiscardEffect.clearCollector ∧
    (∀ r c, DiscardEffect.discardCell r c ∈ discardAllChangesClick changes mounted ↔
      (mounted r c = true ∧
        ∃ row ∈ changes, row.row = r ∧ ∃ cc ∈ row.cols, cc.col = c)) := by
  have hno : DiscardEffect.clearCollector ∉
      (changes.map (fun r => r.cols.filterMap (fun c =>
        if mounted r.row c.col then some (DiscardEffect.discardCell r.row c.col)
        else none))).flatten := by
    intro hmem
    rcases List.mem_flatten.mp hmem with ⟨l, hl, hel⟩
    rcases List.mem_map.mp hl with ⟨row, _, rfl⟩
    rcases List.mem_filterMap.mp hel with ⟨c, _, hc⟩
    by_cases hm : mounted row.row c.col = true
    · rw [if_pos hm] at hc
      exact DiscardEffect.noConfusion (Option.some.inj hc)
    · rw [if_neg hm] at hc
      exact Option.noConfusion hc
  refine ⟨?_, ?_, ?_⟩
  · rw [discardAllChangesClick, List.count_append, List.count_eq_zero.mpr hno]
    rfl
  · rw [discardAllChangesClick, List.getLast?_concat]
  · intro r c
    rw [discardAllChangesClick]
    constructor
    · intro hmem
      rcases List.mem_append.mp hmem with hmem | hmem
      · rcases List.mem_flatten.mp hmem with ⟨l, hl, hel⟩
        rcases List.mem_map.mp hl with ⟨row, hrow, rfl⟩
        rcases List.mem_filterMap.mp hel with ⟨cc, hcc, hsome⟩
        by_cases hm : mounted row.row cc.col = true
        · rw [if_pos hm] at hsome
          have hinj := Option.some.inj hsome
          have h1 : row.row = r := by cases hinj; rfl
          have h2 : cc.col = c := by cases hinj; rfl
          exact ⟨h1 ▸ h2 ▸ hm, row, hrow, h1, cc, hcc, h2⟩
        · rw [if_neg hm] at hsome
          exact Option.noConfusion hsome
      · rcases List.mem_singleton.mp hmem with h
        exact DiscardEffect.noConfusion h
    · rintro ⟨hm, row, hrow, hr, cc, hcc, hc⟩
      apply List.mem_append_left
      apply List.mem_flatten.mpr
      refine ⟨_, List.mem_map_of_mem _ hrow, ?_⟩
      apply List.mem_filterMap.mpr
      refine ⟨cc, hcc, ?_⟩
      rw [hr, hc, if_pos hm]

/-- Concrete instance of claim C5: one mounted pending edit yields one clear. -/
theorem discard_all_changes_behavior_witness :
    (discardAllChangesClick [{ row := 0, cols := [{ col := 1, value := .null }] }]
      (fun _ _ => true)).count DiscardEffect.clearCollector = 1 :=
  (discard_all_changes_behavior
    [{ row := 0, cols := [{ col := 1, value := .null }] }] (fun _ _ => true)).1

/-- Claim C7: for a string/decimal header the initial width is
`max(10 * nameLength, max(150, min(500, 8 * L)))` with `L` the greatest sampled
text length over the first up-to-100 rows (non-strings counting as 10); a
number header gets type-derived width 100, any other type 150; and a string
column whose sample's greatest length is 60 gets type-derived width 480. -/
theorem header_width (result : List ResultRow) (h : QueryResultHeader) (L : Int)
    (hmem : L ∈ sampleLens result h.name)
    (hub : ∀ x ∈ sampleLens result h.name, x ≤ L) :
    ((h.type = .string ∨ h.type = .decimal) →
      headerInitialSize result h
        = max ((h.name.length : Int) * 10) (max 150 (min 500 (8 * L)))) ∧
    (h.type = .number → getInitialSizeByHeaderType result h = 100) ∧
    (∀ kind, h.type = .other kind → getInitialSizeByHeaderType result h = 150) ∧
    getInitialSizeByHeaderType
      [{ data := [("c", JsValue.str sampleString60)], rowIndex := 0 }]
      { name := "c", type := .string, schema := none } = 480 := by
  have hmax : jsMax (sampleLens result h.name) = some L :=
    jsMax_eq_greatest _ L hmem hub
  refine ⟨?_, ?_, ?_, ?_⟩
  · intro htype
    rcases htype with ht | ht <;>
      simp only [headerInitialSize, getInitialSizeByHeaderType, ht, hmax] <;>
      rw [mul_comm L 8]
  · intro ht
    simp only [getInitialSizeByHeaderType, ht]
  · intro kind ht
    simp only [getInitialSizeByHeaderType, ht]
  · rfl

/-- Concrete instance of claim C7 (Scenario C): a 60-character sample gives
initial width `max(10, 480) = 480`. -/
theorem header_width_witness :
    headerInitialSize [{ data := [("c", JsValue.str sampleString60)], rowIndex := 0 }]
      { name := "c", type := .string, schema := none }
      = max ((("c".length : Nat) : Int) * 10) (max 150 (min 500 (8 * 60))) :=
  (header_width [{ data := [("c", JsValue.str sampleString60)], rowIndex := 0 }]
    { name := "c", type := .string, schema := none } 60
    (by decide) (by decide)).1 (Or.inl rfl)

/-- Claim C9: when the schema map or the current database is absent the
updatable-table map is empty and every rendered cell is read-only; a header
without a resolvable originating table is looked up under the empty-string key,
which is never an updatable table, so its cells are read-only too. -/
theorem missing_table_readonly (headers : List QueryResultHeader)
    (result : List ResultRow) (n : Nat)
    (schema : Option (String → String → Bool)) (currentDatabase : Option String)
    (y x : Nat)
    (hres : ∀ hd ∈ headers, ∀ s, hd.schema = some s → s.table ≠ some "") :
    ((schema = none ∨ currentDatabase = none) →
      ∀ t, updatableTables headers schema currentDatabase t = false) ∧
    (∀ hd : QueryResultHeader, hd.schema.bind HeaderSchema.table = none →
      tableKey hd = "") ∧
    updatableTables headers schema currentDatabase "" = false ∧
    (∀ hd, headers.get? x = some hd → hd.schema.bind HeaderSchema.table = none →
      ∀ v hn c r ro,
        renderCell headers result n (updatableTables headers schema currentDatabase) y x
          = RenderResult.cell v hn c r ro → ro = true) ∧
    ((schema = none ∨ currentDatabase = none) →
      ∀ v hn c r ro,
        renderCell headers result n (updatableTables headers schema currentDatabase) y x
          = RenderResult.cell v hn c r ro → ro = true) := by
  have h1 : (schema = none ∨ currentDatabase = none) →
      ∀ t, updatableTables headers schema currentDatabase t = false := by
    intro habs t
    rcases currentDatabase with _ | db
    · rcases schema with _ | sch <;> rfl
    · rcases schema with _ | sch
      · rfl
      · rcases habs with h | h
        · exact Option.noConfusion h
        · exact Option.noConfusion h
  have h2 : ∀ hd : QueryResultHeader, hd.schema.bind HeaderSchema.table = none →
      tableKey hd = "" := by
    intro hd hnone
    rw [tableKey, hnone]
  have h3 : updatableTables headers schema currentDatabase "" = false := by
    rcases currentDatabase with _ | db
    · rcases schema with _ | sch <;> rfl
    · rcases schema with _ | sch
      · rfl
      · by_cases hdb : db = ""
        · show (if db = "" then (fun _ => false)
              else getUpdatableTable headers (sch db)) "" = false
          rw [if_pos hdb]
        · show (if db = "" then (fun _ => false)
              else getUpdatableTable headers (sch db)) "" = false
          rw [if_neg hdb]
          show (headers.any (headerResolvesTo "") && sch db "") = false
          have hany : headers.any (headerResolvesTo "") = false := by
            rw [List.any_eq_false]
            intro hd hhd
            have hfalse : headerResolvesTo "" hd = false := by
              rcases hs : hd.schema with _ | s
              · unfold headerResolvesTo
                rw [hs]
              · unfold headerResolvesTo
                rw [hs]
                show (s.table == some "") = false
                rw [beq_eq_false_iff_ne]
                exact hres hd hhd s hs
            rw [hfalse]
            simp
          rw [hany, Bool.false_and]
  have h4 : ∀ hd, headers.get? x = some hd →
      hd.schema.bind HeaderSchema.table = none →
      ∀ v hn c r ro,
        renderCell headers result n (updatableTables headers schema currentDatabase) y x
          = RenderResult.cell v hn c r ro → ro = true := by
    intro hd hgx hnone v hn c r ro heq
    rw [renderCell] at heq
    rcases hgy : (dataRows headers result n).get? y with _ | row
    · rw [hgy] at heq
      exact RenderResult.noConfusion heq
    · rw [hgy, hgx] at heq
      have hro : ro = ! updatableTables headers schema currentDatabase (tableKey hd) := by
        cases heq
        rfl
      rw [hro, h2 hd hnone, h3]
      rfl
  refine ⟨h1, h2, h3, h4, ?_⟩
  intro habs v hn c r ro heq
  rw [renderCell] at heq
  rcases hgy : (dataRows headers result n).get? y with _ | row
  · rw [hgy] at heq
    exact RenderResult.noConfusion heq
  · rw [hgy] at heq
    rcases hgx : headers.get? x with _ | hd
    · rw [hgx] at heq
      exact RenderResult.noConfusion heq
    · rw [hgx] at heq
      have hro : ro = ! updatableTables headers schema currentDatabase (tableKey hd) := by
        cases heq
        rfl
      rw [hro, h1 habs (tableKey hd)]
      rfl

/-- Concrete instance of claim C9: with no schema the empty-string key is not
updatable. -/
theorem missing_table_readonly_witness :
    updatableTables [{ name := "a", type := .string, schema := none }]
      none none "" = false :=
  (missing_table_readonly [{ name := "a", type := .string, schema := none }] [] 0
    none none 0 0
    (fun hd hhd s hs => by
      rw [List.mem_singleton] at hhd
      subst hhd
      exact Option.noConfusion hs)).2.2.1

end QueryMaster
